import Mathlib

/-!
Verification of the `migrate` database-migration engine.

The definitions below are a shallow embedding of the Go sources:

* the engine (`package migrate`): `sortfiles`, `validHistory`, `checkHash`,
  `migrateFile`, `skip`, `Migrate`;
* the sqlite backend (`sqlite/sqlite.go`): the semantics of the `meta` and
  `metacheckpoints` tables and of each query the engine issues against them;
* the mysql backend's `GetMigrations` (`mysql/mysql.go`), which differs from
  sqlite's by an `ORDER BY filename * 1` clause.

Modelling conventions:

* The MD5 digest (`computeChecksum`) is abstracted as a parameter
  `hash : String → String`; the engine only ever compares digests for
  equality, never inspects them.
* Reading a file from disk (`ioutil.ReadFile`, `os.Open`) is abstracted as a
  total map `fc : String → String` from filename to current on-disk content;
  the claims under verification all presuppose readable files.
* Executing a statement against the live connection (`db.Exec`) is abstracted
  by an oracle `execOk : String → Bool` saying whether the backend accepts the
  statement; successfully executed statements are recorded in an event trace.
* Database tables are lists of rows in stored (insertion) order, which is the
  order a sqlite `SELECT` without `ORDER BY` returns them in.
* Go errors are an inductive type carrying the data of the corresponding
  `fmt.Errorf` site.  Because effects performed before a failure persist in
  the real database, failing computations return the state reached at the
  point of failure alongside the error.
-/

/-- A row of the `meta` table: a fully applied migration
(struct `Migration` in the Go source). -/
structure Migration where
  filename : String
  content : String
  checksum : String
deriving DecidableEq

/-- A row of the `metacheckpoints` table: one successfully executed statement
of a partially applied file.  Primary key: `(filename, idx)`. -/
structure Checkpoint where
  filename : String
  content : String
  checksum : String
  idx : Nat
deriving DecidableEq

/-- The persistent state owned by the Store backend. -/
structure StoreState where
  meta : List Migration
  metacheckpoints : List Checkpoint
deriving DecidableEq

/-- Observable engine events: statement executions and writes to the
metadata tables, in the order they are issued. -/
inductive Event where
  | exec (stmt : String)
  | insertCheckpoint (filename stmt : String) (idx : Nat)
  | deleteCheckpoints
  | insertMigration (filename : String)
  | upsertMigration (filename : String)
deriving DecidableEq

/-- Store state plus the trace of events issued so far. -/
structure EngineState where
  store : StoreState
  trace : List Event
deriving DecidableEq

def defaultMigration : Migration := ⟨"", "", ""⟩

/-! ## Store backend semantics (sqlite) -/

/-- Insertion sort, used to model SQL `ORDER BY`. -/
def sortBy (le : α → α → Prop) [DecidableRel le] (l : List α) : List α :=
  List.insertionSort le l

/-- `GetMigrations` (sqlite): `SELECT filename, content, md5 AS checksum FROM
meta` — no `ORDER BY`, so rows come back in stored order. -/
def sqliteGetMigrations (meta : List Migration) : List Migration :=
  meta

/-- The numeric sort key of a filename: its leading run of ASCII digits read
as a base-10 number (`regexNum.FindString` + `strconv.ParseUint`); `none` if
the name does not begin with a digit, or the value overflows `uint64`. -/
def leadingNum (s : String) : Option Nat :=
  let digits := s.data.takeWhile Char.isDigit
  if digits.isEmpty then none
  else
    let n := digits.foldl (fun acc c => acc * 10 + (c.toNat - '0'.toNat)) 0
    if n < 2 ^ 64 then some n else none

/-- The sort key as a plain `Nat`; only meaningful for names that parse. -/
def fileKey (s : String) : Nat := (leadingNum s).getD 0

/-- `GetMigrations` (mysql): `SELECT ... FROM meta ORDER BY filename * 1`.
The string-to-number coercion reads the leading number of the filename, so
rows come back ordered by numeric filename key. -/
def mysqlGetMigrations (meta : List Migration) : List Migration :=
  sortBy (fun a b => fileKey a.filename ≤ fileKey b.filename) meta

/-- `GetMetaCheckpoints`: `SELECT md5 FROM metacheckpoints WHERE filename=$1
ORDER BY idx`. -/
def getMetaCheckpoints (filename : String) (st : StoreState) : List String :=
  (sortBy (fun a b => a.idx ≤ b.idx)
    (st.metacheckpoints.filter (fun c => c.filename = filename))).map
      (fun c => c.checksum)

/-- `GetMigrations` as the engine calls it (sqlite backend). -/
def getMigrations (st : StoreState) : List Migration :=
  sqliteGetMigrations st.meta

/-- `InsertMetaCheckpoint`: plain `INSERT`; fails on a `(filename, idx)`
primary-key conflict. -/
def insertMetaCheckpoint (filename content checksum : String) (idx : Nat)
    (st : StoreState) : Except Unit StoreState :=
  if st.metacheckpoints.any (fun c => c.filename = filename && c.idx = idx) then
    .error ()
  else
    .ok { st with
          metacheckpoints := st.metacheckpoints ++ [⟨filename, content, checksum, idx⟩] }

/-- `InsertMigration`: plain `INSERT`; fails if the filename is already
present (`filename` is `UNIQUE`). -/
def insertMigration (filename content checksum : String) (st : StoreState) :
    Except Unit StoreState :=
  if st.meta.any (fun m => m.filename = filename) then .error ()
  else .ok { st with meta := st.meta ++ [⟨filename, content, checksum⟩] }

/-- `UpsertMigration`: `INSERT ... ON CONFLICT(filename) DO UPDATE` — updates
the existing row in place, or appends a fresh one. -/
def upsertMigration (filename content checksum : String) (st : StoreState) :
    StoreState :=
  if st.meta.any (fun m => m.filename = filename) then
    { st with
      meta := st.meta.map (fun m =>
        if m.filename = filename then ⟨filename, content, checksum⟩ else m) }
  else { st with meta := st.meta ++ [⟨filename, content, checksum⟩] }

/-- `DeleteMetaCheckpoints`: `DELETE FROM metacheckpoints` — no `WHERE`
clause, so every row of the table goes, for every filename. -/
def deleteMetaCheckpoints (st : StoreState) : StoreState :=
  { st with metacheckpoints := [] }

/-! ## Statement preparation (`migrateFile`, lines 168-181) -/

/-- `strings.Split` on a one-character separator: fragments between
occurrences of `sep`, keeping empty fragments. -/
def splitOnSep (sep : Char) : List Char → List (List Char)
  | [] => [[]]
  | c :: cs =>
    if c = sep then [] :: splitOnSep sep cs
    else
      match splitOnSep sep cs with
      | [] => [[c]]
      | f :: fs => (c :: f) :: fs

/-- `strings.TrimSpace`: drop whitespace from both ends. -/
def trimChars (cs : List Char) : List Char :=
  ((cs.dropWhile Char.isWhitespace).reverse.dropWhile Char.isWhitespace).reverse

/-- `strings.HasPrefix(cmd, "--")`: the fragment is a line comment. -/
def isComment : List Char → Bool
  | '-' :: '-' :: _ => true
  | _ => false

/-- Split the file content on `;`, trim each fragment, and keep only
fragments that are non-empty and not comments (`filteredCmds` in Go). -/
def splitStatements (content : String) : List String :=
  (((splitOnSep ';' content.data).map trimChars).filter
    (fun c => !c.isEmpty && !isComment c)).map (fun cs => String.mk cs)

/-! ## `migrateFile` -/

/-- The error cases of the engine's per-file migration
(each constructor corresponds to one `return err` site in `migrateFile`). -/
inductive MigrateError where
  | emptyFile (filename : String)
  | checkpointOverrun (numCheckpoints numCmds : Nat)
  | checkpointChecksumMismatch (filename : String) (idx : Nat)
  | statementFailed (filename stmt : String)
  | insertCheckpointFailed (filename : String) (idx : Nat)
  | insertMigrationFailed (filename : String)
deriving DecidableEq

/-- The statement loop of `migrateFile` (lines 198-230): while `i` is below
the checkpoint count, verify the stored checksum and skip execution;
afterwards execute each statement and immediately persist a checkpoint. -/
def migrateLoop (hash : String → String) (execOk : String → Bool)
    (filename : String) (checkpoints : List String) :
    List String → Nat → EngineState → Except (MigrateError × EngineState) EngineState
  | [], _, st => .ok st
  | cmd :: rest, i, st =>
    if h : i < checkpoints.length then
      if hash cmd = checkpoints.get ⟨i, h⟩ then
        migrateLoop hash execOk filename checkpoints rest (i + 1) st
      else
        .error (.checkpointChecksumMismatch filename i, st)
    else
      if execOk cmd then
        let st1 : EngineState := { st with trace := st.trace ++ [.exec cmd] }
        match insertMetaCheckpoint filename cmd (hash cmd) i st1.store with
        | .ok s =>
          migrateLoop hash execOk filename checkpoints rest (i + 1)
            { store := s, trace := st1.trace ++ [.insertCheckpoint filename cmd i] }
        | .error _ => .error (.insertCheckpointFailed filename i, st1)
      else
        .error (.statementFailed filename cmd, st)

/-- `migrateFile` (lines 161-246): split and filter statements, guard the
empty file and checkpoint-overrun cases, run the statement loop, then delete
all checkpoints and record the completed migration. -/
def migrateFile (hash : String → String) (execOk : String → Bool)
    (content filename : String) (st : EngineState) :
    Except (MigrateError × EngineState) EngineState :=
  let filteredCmds := splitStatements content
  if filteredCmds.length = 0 then .error (.emptyFile filename, st)
  else
    let checkpoints := getMetaCheckpoints filename st.store
    if filteredCmds.length ≤ checkpoints.length then
      .error (.checkpointOverrun checkpoints.length filteredCmds.length, st)
    else
      match migrateLoop hash execOk filename checkpoints filteredCmds 0 st with
      | .error e => .error e
      | .ok st1 =>
        let st2 : EngineState :=
          { store := deleteMetaCheckpoints st1.store,
            trace := st1.trace ++ [.deleteCheckpoints] }
        match insertMigration filename content (hash content) st2.store with
        | .ok s => .ok { store := s, trace := st2.trace ++ [.insertMigration filename] }
        | .error _ => .error (.insertMigrationFailed filename, st2)

/-! ## `validHistory` -/

/-- The failure cases of `validHistory` / `checkHash`. -/
inductive HistoryError where
  | missingMigrations
  | reordered (fileName mgName : String)
  | checksumMismatch (filename : String)
deriving DecidableEq

/-- The loop of `validHistory` (lines 129-139) over the recorded migrations
from the adoption index on: position `i` must hold the same filename on disk,
and the file's recomputed checksum must equal the recorded one (`checkHash`).
The list argument is `migrations[i..]`; the index is only used for lookups
into `files` and error reporting. -/
def validHistoryLoop (hash fc : String → String) (files : List String) :
    List Migration → Nat → Except HistoryError Unit
  | [], _ => .ok ()
  | mg :: rest, i =>
    if mg.filename ≠ files.getD i "" then
      .error (.reordered (files.getD i "") mg.filename)
    else if hash (fc mg.filename) ≠ mg.checksum then
      .error (.checksumMismatch mg.filename)
    else validHistoryLoop hash fc files rest (i + 1)

/-- `validHistory` (lines 122-141): reject when recorded history is longer
than the file set, then walk positions `startIdx ..` comparing names and
checksums. -/
def validHistory (hash fc : String → String) (files : List String)
    (migrations : List Migration) (startIdx : Nat) : Except HistoryError Unit :=
  if files.length < migrations.length then .error .missingMigrations
  else validHistoryLoop hash fc files (migrations.drop startIdx) startIdx

/-! ## `skip` (adoption) -/

inductive SkipError where
  | unknownTarget (filename : String)
deriving DecidableEq

/-- `filepath.Split`: the base name after the final path separator. -/
def baseName (s : String) : String :=
  ((splitOnSep '/' s.data).getLastD s.data).asString

/-- The upsert loop of `skip` (lines 263-281): for each file of the adopted
prefix, read it, compute its checksum, and upsert the migration record. -/
def skipUpserts (hash fc : String → String) (names : List String)
    (st : EngineState) : EngineState :=
  names.foldl
    (fun st name =>
      { store := upsertMigration name (fc name) (hash (fc name)) st.store,
        trace := st.trace ++ [.upsertMigration name] })
    st

/-- `skip` (lines 248-283): resolve the target's base name to an index in the
ordered file set, then record every file up to and including it without
executing anything; reports the resolved index. -/
def skip (hash fc : String → String) (files : List String) (toFile : String)
    (st : EngineState) : Except SkipError (Nat × EngineState) :=
  let target := baseName toFile
  match files.findIdx? (fun n => n = target) with
  | none => .error (.unknownTarget target)
  | some index => .ok (index, skipUpserts hash fc (files.take (index + 1)) st)

/-! ## `Migrate` -/

/-- The body of `Migrate`'s loop: apply `migrateFile` to each remaining file
in order, stopping at the first failure. -/
def migrateFiles (hash : String → String) (execOk : String → Bool)
    (fc : String → String) :
    List String → EngineState → Except (MigrateError × EngineState) EngineState
  | [], st => .ok st
  | f :: rest, st =>
    match migrateFile hash execOk (fc f) f st with
    | .ok st1 => migrateFiles hash execOk fc rest st1
    | .error e => .error e

/-- `Migrate` (lines 109-120): run `migrateFile` for files
`len(migrations) .. len(files)-1`; report whether any file was migrated. -/
def Migrate (hash : String → String) (execOk : String → Bool)
    (fc : String → String) (files : List String) (migrations : List Migration)
    (st : EngineState) : Except (MigrateError × EngineState) (Bool × EngineState) :=
  match migrateFiles hash execOk fc (files.drop migrations.length) st with
  | .ok st1 => .ok (decide (migrations.length < files.length), st1)
  | .error e => .error e

/-! ## `sortfiles` -/

inductive SortError where
  | invalidFilename (filename : String)
  | duplicateSeqNum (n : Nat)
deriving DecidableEq

/-- First key value occurring twice in the list, if any. -/
def firstDupKey : List Nat → Option Nat
  | [] => none
  | k :: rest => if rest.contains k then some k else firstDupKey rest

/-- `sortfiles` (lines 323-348): `sort.Slice` with a comparator that parses
the leading digit run of both names, records an error on a parse failure or
on two equal keys, and otherwise orders by key.  Modelled as: fail with
`invalidFilename` when some name has no parseable leading number, fail with
`duplicateSeqNum` when two names share a numeric key, and otherwise return
the permutation sorted ascending by key. -/
def sortfiles (files : List String) : Except SortError (List String) :=
  match files.find? (fun f => (leadingNum f).isNone) with
  | some f => .error (.invalidFilename f)
  | none =>
    match firstDupKey (files.map fileKey) with
    | some k => .error (.duplicateSeqNum k)
    | none => .ok (sortBy (fun a b => fileKey a ≤ fileKey b) files)

/-- The events the statement loop of `migrateFile` issues when it starts
executing at statement index `i`: each statement is executed and then
immediately checkpointed, in ascending order. -/
def execTrace (filename : String) : List String → Nat → List Event
  | [], _ => []
  | cmd :: rest, i =>
    .exec cmd :: .insertCheckpoint filename cmd i :: execTrace filename rest (i + 1)

instance : IsTotal String (fun a b => fileKey a ≤ fileKey b) :=
  ⟨fun a b => Nat.le_total (fileKey a) (fileKey b)⟩

instance : IsTrans String (fun a b => fileKey a ≤ fileKey b) :=
  ⟨fun _ _ _ h1 h2 => Nat.le_trans h1 h2⟩

instance : IsAntisymm String (fun a b => fileKey a < fileKey b) :=
  ⟨fun _ _ h1 h2 => absurd (Nat.lt_trans h1 h2) (Nat.lt_irrefl _)⟩

/-! ## List helper lemmas -/

theorem getD_eq_get (l : List α) (i : Nat) (d : α) (h : i < l.length) :
    l.getD i d = l.get ⟨i, h⟩ := by
  rw [List.getD_eq_getElem l d h, List.get_eq_getElem]

theorem getD_mem (l : List α) (i : Nat) (d : α) (h : i < l.length) :
    l.getD i d ∈ l := by
  rw [getD_eq_get l i d h]
  exact List.get_mem l i h

theorem getD_drop (l : List α) (k j : Nat) (d : α) :
    (l.drop k).getD j d = l.getD (k + j) d := by
  induction l generalizing k with
  | nil => simp
  | cons a t ih =>
    cases k with
    | zero => simp
    | succ k =>
      have e : k + 1 + j = (k + j) + 1 := by omega
      rw [e, List.drop_succ_cons, List.getD_cons_succ, ih k]

theorem getD_map_filename (l : List Migration) (j : Nat) :
    (l.map (fun mg => mg.filename)).getD j "" =
      (l.getD j defaultMigration).filename := by
  induction l generalizing j with
  | nil => simp [defaultMigration]
  | cons a t ih =>
    cases j with
    | zero => rfl
    | succ j => simpa using ih j

/-! ## `validHistory`: loop characterization -/

theorem validHistoryLoop_cons (hash fc : String → String) (files : List String)
    (mg : Migration) (rest : List Migration) (i : Nat) :
    validHistoryLoop hash fc files (mg :: rest) i =
      if mg.filename ≠ files.getD i "" then
        .error (.reordered (files.getD i "") mg.filename)
      else if hash (fc mg.filename) ≠ mg.checksum then
        .error (.checksumMismatch mg.filename)
      else validHistoryLoop hash fc files rest (i + 1) := rfl

theorem validHistoryLoop_ok_iff (hash fc : String → String) (files : List String) :
    ∀ (ms : List Migration) (i : Nat),
    validHistoryLoop hash fc files ms i = .ok () ↔
      ∀ j, j < ms.length →
        (ms.getD j defaultMigration).filename = files.getD (i + j) "" ∧
        hash (fc (ms.getD j defaultMigration).filename) =
          (ms.getD j defaultMigration).checksum
  | [], i => by
    constructor
    · intro _ j hj
      exact absurd hj (by simp)
    · intro _
      rfl
  | mg :: rest, i => by
    rw [validHistoryLoop_cons]
    by_cases h1 : mg.filename = files.getD i ""
    · rw [if_neg (not_not_intro h1)]
      by_cases h2 : hash (fc mg.filename) = mg.checksum
      · rw [if_neg (not_not_intro h2)]
        rw [validHistoryLoop_ok_iff hash fc files rest (i + 1)]
        constructor
        · intro H j hj
          cases j with
          | zero =>
            simp only [List.getD_cons_zero, Nat.add_zero]
            exact ⟨h1, h2⟩
          | succ j =>
            have hrec := H j (by simpa using hj)
            simp only [List.getD_cons_succ]
            have e : i + (j + 1) = (i + 1) + j := by omega
            rw [e]
            exact hrec
        · intro H j hj
          have hrec := H (j + 1) (by simpa using hj)
          simp only [List.getD_cons_succ] at hrec
          have e : i + (j + 1) = (i + 1) + j := by omega
          rw [e] at hrec
          exact hrec
      · rw [if_pos h2]
        constructor
        · intro H
          exact absurd H (by simp)
        · intro H
          have h0 := (H 0 (by simp)).2
          simp only [List.getD_cons_zero, Nat.add_zero] at h0
          exact absurd h0 h2
    · rw [if_pos h1]
      constructor
      · intro H
        exact absurd H (by simp)
      · intro H
        have h0 := (H 0 (by simp)).1
        simp only [List.getD_cons_zero, Nat.add_zero] at h0
        exact absurd h0 h1

theorem validHistoryLoop_reordered (hash fc : String → String) (files : List String) :
    ∀ (ms : List Migration) (i t : Nat), t < ms.length →
    (∀ j, j < t →
      (ms.getD j defaultMigration).filename = files.getD (i + j) "" ∧
      hash (fc (ms.getD j defaultMigration).filename) =
        (ms.getD j defaultMigration).checksum) →
    (ms.getD t defaultMigration).filename ≠ files.getD (i + t) "" →
    validHistoryLoop hash fc files ms i =
      .error (.reordered (files.getD (i + t) "")
        (ms.getD t defaultMigration).filename)
  | [], i, t, ht, _, _ => by simp at ht
  | mg :: rest, i, t, ht, hpre, hmis => by
    rw [validHistoryLoop_cons]
    cases t with
    | zero =>
      simp only [List.getD_cons_zero, Nat.add_zero] at hmis ⊢
      rw [if_pos hmis]
    | succ t =>
      have h0 := hpre 0 (Nat.succ_pos t)
      simp only [List.getD_cons_zero, Nat.add_zero] at h0
      rw [if_neg (not_not_intro h0.1), if_neg (not_not_intro h0.2)]
      have e : i + (t + 1) = (i + 1) + t := by omega
      simp only [List.getD_cons_succ] at hmis ⊢
      rw [e] at hmis ⊢
      exact validHistoryLoop_reordered hash fc files rest (i + 1) t
        (by simpa using ht)
        (fun j hj => by
          have hj1 := hpre (j + 1) (by omega)
          simp only [List.getD_cons_succ] at hj1
          have e2 : i + (j + 1) = (i + 1) + j := by omega
          rw [e2] at hj1
          exact hj1)
        hmis

theorem validHistoryLoop_mismatch (hash fc : String → String) (files : List String) :
    ∀ (ms : List Migration) (i t : Nat), t < ms.length →
    (∀ j, j < t →
      (ms.getD j defaultMigration).filename = files.getD (i + j) "" ∧
      hash (fc (ms.getD j defaultMigration).filename) =
        (ms.getD j defaultMigration).checksum) →
    (ms.getD t defaultMigration).filename = files.getD (i + t) "" →
    hash (fc (ms.getD t defaultMigration).filename) ≠
      (ms.getD t defaultMigration).checksum →
    validHistoryLoop hash fc files ms i =
      .error (.checksumMismatch (ms.getD t defaultMigration).filename)
  | [], i, t, ht, _, _, _ => by simp at ht
  | mg :: rest, i, t, ht, hpre, hname, hmis => by
    rw [validHistoryLoop_cons]
    cases t with
    | zero =>
      simp only [List.getD_cons_zero, Nat.add_zero] at hname hmis ⊢
      rw [if_neg (not_not_intro hname), if_pos hmis]
    | succ t =>
      have h0 := hpre 0 (Nat.succ_pos t)
      simp only [List.getD_cons_zero, Nat.add_zero] at h0
      rw [if_neg (not_not_intro h0.1), if_neg (not_not_intro h0.2)]
      have e : i + (t + 1) = (i + 1) + t := by omega
      simp only [List.getD_cons_succ] at hname hmis ⊢
      rw [e] at hname
      exact validHistoryLoop_mismatch hash fc files rest (i + 1) t
        (by simpa using ht)
        (fun j hj => by
          have hj1 := hpre (j + 1) (by omega)
          simp only [List.getD_cons_succ] at hj1
          have e2 : i + (j + 1) = (i + 1) + j := by omega
          rw [e2] at hj1
          exact hj1)
        hname hmis

/-- C1: `validHistory` succeeds exactly when the recorded history is a
verified prefix of the on-disk order: it fails with `missingMigrations`
whenever more migrations are recorded than files exist; walking indices from
the adoption start index, it fails with `reordered` at the first position
whose recorded filename differs from the file set's name there, and with
`checksumMismatch` at the first position whose recomputed on-disk checksum
differs from the recorded one; it returns ok exactly when none of these
conditions hold. -/
theorem validHistory_spec (hash fc : String → String) (files : List String)
    (migs : List Migration) (k : Nat) :
    (validHistory hash fc files migs k = .ok () ↔
      (migs.length ≤ files.length ∧
       ∀ t, k ≤ t → t < migs.length →
         (migs.getD t defaultMigration).filename = files.getD t "" ∧
         hash (fc (migs.getD t defaultMigration).filename) =
           (migs.getD t defaultMigration).checksum))
  ∧ (files.length < migs.length →
      validHistory hash fc files migs k = .error .missingMigrations)
  ∧ (∀ t, k ≤ t → t < migs.length → migs.length ≤ files.length →
      (∀ j, k ≤ j → j < t →
        (migs.getD j defaultMigration).filename = files.getD j "" ∧
        hash (fc (migs.getD j defaultMigration).filename) =
          (migs.getD j defaultMigration).checksum) →
      (migs.getD t defaultMigration).filename ≠ files.getD t "" →
      validHistory hash fc files migs k =
        .error (.reordered (files.getD t "")
          (migs.getD t defaultMigration).filename))
  ∧ (∀ t, k ≤ t → t < migs.length → migs.length ≤ files.length →
      (∀ j, k ≤ j → j < t →
        (migs.getD j defaultMigration).filename = files.getD j "" ∧
        hash (fc (migs.getD j defaultMigration).filename) =
          (migs.getD j defaultMigration).checksum) →
      (migs.getD t defaultMigration).filename = files.getD t "" →
      hash (fc (migs.getD t defaultMigration).filename) ≠
        (migs.getD t defaultMigration).checksum →
      validHistory hash fc files migs k =
        .error (.checksumMismatch (migs.getD t defaultMigration).filename)) := by
  refine ⟨?_, ?_, ?_, ?_⟩
  · by_cases hlen : files.length < migs.length
    · constructor
      · intro H
        unfold validHistory at H
        rw [if_pos hlen] at H
        exact absurd H (by simp)
      · rintro ⟨hle, -⟩
        omega
    · unfold validHistory
      rw [if_neg hlen, validHistoryLoop_ok_iff]
      constructor
      · intro H
        refine ⟨by omega, fun t hkt htl => ?_⟩
        have hj := H (t - k) (by rw [List.length_drop]; omega)
        rw [getD_drop] at hj
        have e : k + (t - k) = t := by omega
        rw [e] at hj
        exact hj
      · rintro ⟨hle, H⟩ j hj
        rw [List.length_drop] at hj
        rw [getD_drop]
        exact H (k + j) (by omega) (by omega)
  · intro hlen
    unfold validHistory
    rw [if_pos hlen]
  · intro t hkt htl hlen hpre hmis
    unfold validHistory
    rw [if_neg (by omega)]
    have e : k + (t - k) = t := by omega
    have hconc := validHistoryLoop_reordered hash fc files (migs.drop k) k (t - k)
      (by rw [List.length_drop]; omega)
      (fun j hj => by
        rw [getD_drop]
        exact hpre (k + j) (by omega) (by omega))
      (by
        rw [getD_drop, e]
        exact hmis)
    rw [getD_drop, e] at hconc
    exact hconc
  · intro t hkt htl hlen hpre hname hmis
    unfold validHistory
    rw [if_neg (by omega)]
    have e : k + (t - k) = t := by omega
    have hconc := validHistoryLoop_mismatch hash fc files (migs.drop k) k (t - k)
      (by rw [List.length_drop]; omega)
      (fun j hj => by
        rw [getD_drop]
        exact hpre (k + j) (by omega) (by omega))
      (by
        rw [getD_drop, e]
        exact hname)
      (by
        rw [getD_drop, e]
        exact hmis)
    rw [getD_drop, e] at hconc
    exact hconc

/-- Witness for C1: a one-record history matching disk validates ok, and a
history whose recorded first file differs from the on-disk first file is
rejected as reordered. -/
theorem validHistory_spec_witness :
    validHistory (fun s => s) (fun _ => "c") ["1.sql", "2.sql"]
      [⟨"1.sql", "c", "c"⟩] 0 = .ok ()
  ∧ validHistory (fun s => s) (fun _ => "c") ["0.sql", "1.sql"]
      [⟨"1.sql", "c", "c"⟩] 0 =
      .error (.reordered "0.sql" "1.sql") :=
  ⟨((validHistory_spec (fun s => s) (fun _ => "c") ["1.sql", "2.sql"]
      [⟨"1.sql", "c", "c"⟩] 0).1).mpr
    ⟨by decide, fun t _ htl => by
      have h0 : t = 0 := by simpa using htl
      subst h0
      exact ⟨by decide, by decide⟩⟩,
   (validHistory_spec (fun s => s) (fun _ => "c") ["0.sql", "1.sql"]
      [⟨"1.sql", "c", "c"⟩] 0).2.2.1 0 (by decide) (by decide) (by decide)
    (fun j _ hj => absurd hj (Nat.not_lt_zero j)) (by decide)⟩

/-! ## `migrateLoop`: run characterization -/

theorem migrateLoop_skip_step (hash : String → String) (execOk : String → Bool)
    (filename : String) (cps : List String) (cmd : String) (rest : List String)
    (i : Nat) (st : EngineState) (h : i < cps.length)
    (hkey : hash cmd = cps.get ⟨i, h⟩) :
    migrateLoop hash execOk filename cps (cmd :: rest) i st =
      migrateLoop hash execOk filename cps rest (i + 1) st := by
  simp only [migrateLoop]
  rw [dif_pos h, if_pos hkey]

theorem migrateLoop_run (hash : String → String) (execOk : String → Bool)
    (filename : String) (cps : List String) :
    ∀ (cmds : List String) (i : Nat) (st : EngineState),
    (∀ j, j < cmds.length → i + j < cps.length →
      hash (cmds.getD j "") = cps.getD (i + j) "") →
    (∀ c ∈ cmds.drop (cps.length - i), execOk c = true) →
    (∀ c ∈ st.store.metacheckpoints, c.filename = filename →
      (c.idx < cps.length ∨ c.idx < i)) →
    ∃ rows, migrateLoop hash execOk filename cps cmds i st =
      .ok { store := { meta := st.store.meta, metacheckpoints := rows },
            trace := st.trace ++
              execTrace filename (cmds.drop (cps.length - i)) (max i cps.length) }
  | [], i, st, _, _, _ => by
    refine ⟨st.store.metacheckpoints, ?_⟩
    simp [migrateLoop, execTrace]
  | cmd :: rest, i, st, hA, hB, hC => by
    by_cases h : i < cps.length
    · -- verification phase: the stored checksum matches, nothing is executed
      have hkey : hash cmd = cps.get ⟨i, h⟩ := by
        have h0 := hA 0 (by simp) (by simpa using h)
        rw [Nat.add_zero, List.getD_cons_zero, getD_eq_get cps i "" h] at h0
        exact h0
      rw [migrateLoop_skip_step hash execOk filename cps cmd rest i st h hkey]
      have e1 : cps.length - i = (cps.length - (i + 1)) + 1 := by omega
      obtain ⟨rows, hrows⟩ := migrateLoop_run hash execOk filename cps rest (i + 1) st
        (fun j hj hij => by
          have hs := hA (j + 1) (by simpa using hj) (by omega)
          rw [List.getD_cons_succ] at hs
          have e : i + (j + 1) = (i + 1) + j := by omega
          rw [e] at hs
          exact hs)
        (fun c hc => by
          refine hB c ?_
          rw [e1, List.drop_succ_cons]
          exact hc)
        (fun c hc hf => (hC c hc hf).imp id (fun hlt => by omega))
      refine ⟨rows, ?_⟩
      rw [hrows, e1, List.drop_succ_cons,
        Nat.max_eq_right (Nat.le_of_lt h), Nat.max_eq_right h]
    · -- execution phase: run the statement, then write its checkpoint
      have e0 : cps.length - i = 0 := by omega
      have hex : execOk cmd = true := by
        refine hB cmd ?_
        rw [e0, List.drop_zero]
        exact List.mem_cons_self cmd rest
      have hnoconf :
          st.store.metacheckpoints.any
            (fun c => c.filename = filename && c.idx = i) = false := by
        rw [List.any_eq_false]
        intro c hc
        simp only [Bool.and_eq_true, decide_eq_true_eq, not_and]
        intro hf hi
        rcases hC c hc hf with h1 | h1 <;> omega
      simp only [migrateLoop]
      rw [dif_neg h, if_pos hex]
      simp only [insertMetaCheckpoint]
      rw [if_neg (by rw [hnoconf]; simp)]
      obtain ⟨rows, hrows⟩ := migrateLoop_run hash execOk filename cps rest (i + 1)
        ⟨⟨st.store.meta,
          st.store.metacheckpoints ++ [⟨filename, cmd, hash cmd, i⟩]⟩,
          st.trace ++ [.exec cmd] ++ [.insertCheckpoint filename cmd i]⟩
        (fun j _ hij => absurd hij (by omega))
        (fun c hc => by
          rw [show cps.length - (i + 1) = 0 from by omega, List.drop_zero] at hc
          refine hB c ?_
          rw [e0, List.drop_zero]
          exact List.mem_cons_of_mem cmd hc)
        (fun c hc hf => by
          rcases List.mem_append.mp hc with hmem | hmem
          · exact (hC c hmem hf).imp id (fun hlt => by omega)
          · right
            rw [List.mem_singleton.mp hmem]
            exact Nat.lt_succ_self i)
      refine ⟨rows, ?_⟩
      show migrateLoop hash execOk filename cps rest (i + 1)
          ⟨⟨st.store.meta,
            st.store.metacheckpoints ++ [⟨filename, cmd, hash cmd, i⟩]⟩,
            st.trace ++ [.exec cmd] ++ [.insertCheckpoint filename cmd i]⟩ =
        Except.ok
          ⟨⟨st.store.meta, rows⟩,
            st.trace ++
              execTrace filename (List.drop (cps.length - i) (cmd :: rest))
                (max i cps.length)⟩
      rw [hrows]
      rw [show cps.length - (i + 1) = 0 from by omega, List.drop_zero, e0,
        List.drop_zero, Nat.max_eq_left (by omega : cps.length ≤ i + 1),
        Nat.max_eq_left (by omega : cps.length ≤ i)]
      simp [execTrace]

theorem migrateLoop_mismatch (hash : String → String) (execOk : String → Bool)
    (filename : String) (cps : List String) :
    ∀ (cmds : List String) (i t : Nat) (st : EngineState),
    i ≤ t → t < cps.length → t - i < cmds.length →
    (∀ j, j < t - i → hash (cmds.getD j "") = cps.getD (i + j) "") →
    hash (cmds.getD (t - i) "") ≠ cps.getD t "" →
    migrateLoop hash execOk filename cps cmds i st =
      .error (.checkpointChecksumMismatch filename t, st)
  | [], _, _, _, _, _, hlen, _, _ => by simp at hlen
  | cmd :: rest, i, t, st, hit, htl, hlen, hpre, hmis => by
    by_cases hi : i = t
    · subst hi
      rw [show i - i = 0 from by omega, List.getD_cons_zero,
        getD_eq_get cps i "" htl] at hmis
      simp only [migrateLoop]
      rw [dif_pos htl, if_neg hmis]
    · have h : i < cps.length := by omega
      have hkey : hash cmd = cps.get ⟨i, h⟩ := by
        have h0 := hpre 0 (by omega)
        rw [Nat.add_zero, List.getD_cons_zero, getD_eq_get cps i "" h] at h0
        exact h0
      rw [migrateLoop_skip_step hash execOk filename cps cmd rest i st h hkey]
      exact migrateLoop_mismatch hash execOk filename cps rest (i + 1) t st
        (by omega) htl
        (by simp only [List.length_cons] at hlen; omega)
        (fun j hj => by
          have hs := hpre (j + 1) (by omega)
          rw [List.getD_cons_succ] at hs
          have e : i + (j + 1) = (i + 1) + j := by omega
          rw [e] at hs
          exact hs)
        (by
          rw [show t - i = (t - (i + 1)) + 1 from by omega,
            List.getD_cons_succ] at hmis
          exact hmis)

theorem migrateLoop_no_emptyFile (hash : String → String) (execOk : String → Bool)
    (filename : String) (cps : List String) :
    ∀ (cmds : List String) (i : Nat) (st : EngineState) (g : String)
      (st2 : EngineState),
    migrateLoop hash execOk filename cps cmds i st ≠ .error (.emptyFile g, st2)
  | [], i, st, g, st2 => by simp [migrateLoop]
  | cmd :: rest, i, st, g, st2 => by
    intro H
    simp only [migrateLoop] at H
    by_cases h : i < cps.length
    · rw [dif_pos h] at H
      by_cases hkey : hash cmd = cps.get ⟨i, h⟩
      · rw [if_pos hkey] at H
        exact migrateLoop_no_emptyFile hash execOk filename cps rest (i + 1) st g
          st2 H
      · rw [if_neg hkey] at H
        simp at H
    · rw [dif_neg h] at H
      by_cases hex : execOk cmd = true
      · rw [if_pos hex] at H
        cases hE : insertMetaCheckpoint filename cmd (hash cmd) i st.store with
        | error u =>
          rw [hE] at H
          simp at H
        | ok s =>
          rw [hE] at H
          exact migrateLoop_no_emptyFile hash execOk filename cps rest (i + 1) _ g
            st2 H
      · rw [if_neg hex] at H
        simp at H

theorem migrateLoop_ok_meta (hash : String → String) (execOk : String → Bool)
    (filename : String) (cps : List String) :
    ∀ (cmds : List String) (i : Nat) (st st1 : EngineState),
    migrateLoop hash execOk filename cps cmds i st = .ok st1 →
    st1.store.meta = st.store.meta
  | [], i, st, st1, H => by
    simp only [migrateLoop] at H
    rw [← Except.ok.inj H]
  | cmd :: rest, i, st, st1, H => by
    simp only [migrateLoop] at H
    by_cases h : i < cps.length
    · rw [dif_pos h] at H
      by_cases hkey : hash cmd = cps.get ⟨i, h⟩
      · rw [if_pos hkey] at H
        exact migrateLoop_ok_meta hash execOk filename cps rest (i + 1) st st1 H
      · rw [if_neg hkey] at H
        simp at H
    · rw [dif_neg h] at H
      by_cases hex : execOk cmd = true
      · rw [if_pos hex] at H
        cases hE : insertMetaCheckpoint filename cmd (hash cmd) i st.store with
        | error u =>
          rw [hE] at H
          simp at H
        | ok s =>
          rw [hE] at H
          have hs : s.meta = st.store.meta := by
            simp only [insertMetaCheckpoint] at hE
            by_cases hc : st.store.metacheckpoints.any
                (fun c => c.filename = filename && c.idx = i) = true
            · rw [if_pos hc] at hE
              simp at hE
            · rw [if_neg hc] at hE
              rw [← Except.ok.inj hE]
          rw [migrateLoop_ok_meta hash execOk filename cps rest (i + 1) _ st1 H]
          exact hs
      · rw [if_neg hex] at H
        simp at H

theorem migrateFile_ok_shape (hash : String → String) (execOk : String → Bool)
    (content filename : String) (st st2 : EngineState)
    (h : migrateFile hash execOk content filename st = .ok st2) :
    st2.store.meta = st.store.meta ++ [⟨filename, content, hash content⟩] ∧
    st2.store.metacheckpoints = [] := by
  simp only [migrateFile] at h
  by_cases h0 : (splitStatements content).length = 0
  · rw [if_pos h0] at h
    simp at h
  · rw [if_neg h0] at h
    by_cases h1 : (splitStatements content).length ≤
        (getMetaCheckpoints filename st.store).length
    · rw [if_pos h1] at h
      simp at h
    · rw [if_neg h1] at h
      cases hE : migrateLoop hash execOk filename
          (getMetaCheckpoints filename st.store) (splitStatements content) 0 st with
      | error e =>
        rw [hE] at h
        simp at h
      | ok st1 =>
        rw [hE] at h
        have hmeta1 := migrateLoop_ok_meta hash execOk filename
          (getMetaCheckpoints filename st.store) (splitStatements content) 0 st st1 hE
        simp only [insertMigration, deleteMetaCheckpoints] at h
        by_cases h2 : st1.store.meta.any (fun m => m.filename = filename) = true
        · rw [if_pos h2] at h
          simp at h
        · rw [if_neg h2] at h
          obtain rfl := (Except.ok.inj h).symm
          exact ⟨by rw [← hmeta1], rfl⟩

theorem migrateFile_after_loop (hash : String → String) (execOk : String → Bool)
    (content filename : String) (st : EngineState)
    (hne : ¬ (splitStatements content).length = 0)
    (hover : ¬ (splitStatements content).length ≤
      (getMetaCheckpoints filename st.store).length)
    (st1 : EngineState)
    (hloop : migrateLoop hash execOk filename (getMetaCheckpoints filename st.store)
      (splitStatements content) 0 st = .ok st1) :
    migrateFile hash execOk content filename st =
      match insertMigration filename content (hash content)
          (deleteMetaCheckpoints st1.store) with
      | .ok s => .ok ⟨s, st1.trace ++ [.deleteCheckpoints] ++
          [.insertMigration filename]⟩
      | .error _ => .error (.insertMigrationFailed filename,
          ⟨deleteMetaCheckpoints st1.store, st1.trace ++ [.deleteCheckpoints]⟩) := by
  simp only [migrateFile]
  rw [if_neg hne, if_neg hover, hloop]

/-- C2: resuming a partially executed file runs only the non-checkpointed
suffix.  With `k` stored checkpoints all of whose checksums match and `n > k`
filtered statements, `migrateFile` succeeds, its event trace executes exactly
statements `k..n-1` in ascending order with a checkpoint persisted
immediately after each execution (and never before it), then deletes the
checkpoints and inserts the Migration record carrying the file's content and
checksum; statements `0..k-1` are never executed. -/
theorem migrateFile_resume (hash : String → String) (execOk : String → Bool)
    (content filename : String) (st : EngineState) (cmds cps : List String)
    (hcmds : splitStatements content = cmds)
    (hcps : getMetaCheckpoints filename st.store = cps)
    (hk : cps.length < cmds.length)
    (hmatch : ∀ i, i < cps.length → hash (cmds.getD i "") = cps.getD i "")
    (hexec : ∀ c ∈ cmds.drop cps.length, execOk c = true)
    (hfresh : ∀ c ∈ st.store.metacheckpoints, c.filename = filename →
      c.idx < cps.length)
    (hmeta : ∀ mg ∈ st.store.meta, mg.filename ≠ filename) :
    migrateFile hash execOk content filename st =
      .ok ⟨⟨st.store.meta ++ [⟨filename, content, hash content⟩], []⟩,
        st.trace ++ execTrace filename (cmds.drop cps.length) cps.length ++
          [.deleteCheckpoints, .insertMigration filename]⟩ := by
  subst hcmds
  subst hcps
  obtain ⟨rows, hrows⟩ := migrateLoop_run hash execOk filename
    (getMetaCheckpoints filename st.store) (splitStatements content) 0 st
    (fun j hj hij => by
      have hs := hmatch j (by simpa using hij)
      simpa using hs)
    (by
      rw [Nat.sub_zero]
      exact hexec)
    (fun c hc hf => Or.inl (hfresh c hc hf))
  rw [Nat.sub_zero, Nat.zero_max] at hrows
  have hno : st.store.meta.any (fun m => m.filename = filename) = false := by
    rw [List.any_eq_false]
    intro mg hmg
    simpa using hmeta mg hmg
  rw [migrateFile_after_loop hash execOk content filename st (by omega) (by omega)
    _ hrows]
  have hins : insertMigration filename content (hash content)
      (deleteMetaCheckpoints (⟨st.store.meta, rows⟩ : StoreState)) =
      .ok ⟨st.store.meta ++ [⟨filename, content, hash content⟩], []⟩ := by
    simp only [insertMigration, deleteMetaCheckpoints]
    rw [if_neg (by rw [hno]; simp)]
  dsimp only
  rw [hins]
  dsimp only
  simp [List.append_assoc]

/-- Witness for C2: a file `"a; b"` with one matching stored checkpoint for
statement `"a"` resumes by executing only `"b"`. -/
theorem migrateFile_resume_witness :
    migrateFile (fun s => s) (fun _ => true) "a; b" "f.sql"
      ⟨⟨[], [⟨"f.sql", "a", "a", 0⟩]⟩, []⟩ =
    .ok ⟨⟨[⟨"f.sql", "a; b", "a; b"⟩], []⟩,
      [.exec "b", .insertCheckpoint "f.sql" "b" 1, .deleteCheckpoints,
       .insertMigration "f.sql"]⟩ :=
  migrateFile_resume (fun s => s) (fun _ => true) "a; b" "f.sql"
    ⟨⟨[], [⟨"f.sql", "a", "a", 0⟩]⟩, []⟩ ["a", "b"] ["a"]
    (by decide) (by decide) (by decide)
    (fun i hi => by
      have h0 : i = 0 := by simpa using hi
      subst h0
      decide)
    (by decide) (by decide) (by decide)

/-- C3: checkpoint consistency guards.  With a non-empty filtered statement
list, if at least as many checkpoints are stored as statements exist,
`migrateFile` fails with the checkpoint-overrun error before executing
anything (the state is untouched); and if the recomputed checksum of
statement `t` (below the checkpoint count) differs from the stored
checkpoint checksum while all earlier ones match, it fails with the
checkpoint-checksum-mismatch error for `t`, again with the state untouched,
so no statement at or past `t` is executed. -/
theorem migrateFile_checkpoint_guards (hash : String → String)
    (execOk : String → Bool) (content filename : String) (st : EngineState) :
    (splitStatements content ≠ [] →
      (getMetaCheckpoints filename st.store).length ≥
        (splitStatements content).length →
      migrateFile hash execOk content filename st =
        .error (.checkpointOverrun (getMetaCheckpoints filename st.store).length
          (splitStatements content).length, st))
  ∧ (∀ t, (getMetaCheckpoints filename st.store).length <
        (splitStatements content).length →
      t < (getMetaCheckpoints filename st.store).length →
      (∀ j, j < t → hash ((splitStatements content).getD j "") =
        (getMetaCheckpoints filename st.store).getD j "") →
      hash ((splitStatements content).getD t "") ≠
        (getMetaCheckpoints filename st.store).getD t "" →
      migrateFile hash execOk content filename st =
        .error (.checkpointChecksumMismatch filename t, st)) := by
  constructor
  · intro hne hover
    simp only [migrateFile]
    rw [if_neg (by simpa using hne), if_pos (by omega)]
  · intro t hk ht hpre hmis
    simp only [migrateFile]
    rw [if_neg (by omega), if_neg (by omega),
      migrateLoop_mismatch hash execOk filename
        (getMetaCheckpoints filename st.store) (splitStatements content) 0 t st
        (Nat.zero_le t) ht (by omega)
        (fun j hj => by simpa using hpre j (by omega))
        (by simpa using hmis)]

/-- Witness for C3: a one-statement file with one checkpoint overruns, and a
file whose first checkpointed statement hashes differently from the stored
checkpoint checksum fails the mismatch check. -/
theorem migrateFile_checkpoint_guards_witness :
    migrateFile (fun s => s) (fun _ => true) "a" "f.sql"
      ⟨⟨[], [⟨"f.sql", "a", "a", 0⟩]⟩, []⟩ =
      .error (.checkpointOverrun 1 1, ⟨⟨[], [⟨"f.sql", "a", "a", 0⟩]⟩, []⟩)
  ∧ migrateFile (fun s => s) (fun _ => true) "a; b" "g.sql"
      ⟨⟨[], [⟨"g.sql", "z", "z", 0⟩]⟩, []⟩ =
      .error (.checkpointChecksumMismatch "g.sql" 0,
        ⟨⟨[], [⟨"g.sql", "z", "z", 0⟩]⟩, []⟩) :=
  ⟨(migrateFile_checkpoint_guards (fun s => s) (fun _ => true) "a" "f.sql"
      ⟨⟨[], [⟨"f.sql", "a", "a", 0⟩]⟩, []⟩).1 (by decide) (by decide),
   (migrateFile_checkpoint_guards (fun s => s) (fun _ => true) "a; b" "g.sql"
      ⟨⟨[], [⟨"g.sql", "z", "z", 0⟩]⟩, []⟩).2 0 (by decide) (by decide)
     (fun j hj => absurd hj (Nat.not_lt_zero j)) (by decide)⟩

/-- C10: checkpoint deletion is global, not filename-scoped.  Whenever
`migrateFile` completes a file successfully, the `DeleteMetaCheckpoints`
call it issues leaves zero rows in the checkpoint table, so afterwards no
checkpoints remain for any filename — including ones recorded under other
filenames. -/
theorem migrateFile_clears_all_checkpoints (hash : String → String)
    (execOk : String → Bool) (content filename : String) (st st2 : EngineState)
    (h : migrateFile hash execOk content filename st = .ok st2) :
    st2.store.metacheckpoints = [] ∧
    ∀ g, getMetaCheckpoints g st2.store = [] := by
  have hcp := (migrateFile_ok_shape hash execOk content filename st st2 h).2
  refine ⟨hcp, fun g => ?_⟩
  simp [getMetaCheckpoints, sortBy, hcp]

/-- Witness for C10: completing `"a.sql"` deletes a checkpoint row that was
recorded under the unrelated filename `"b.sql"`. -/
theorem migrateFile_clears_all_checkpoints_witness :
    migrateFile (fun s => s) (fun _ => true) "x" "a.sql"
      ⟨⟨[], [⟨"b.sql", "z", "hz", 0⟩]⟩, []⟩ =
      .ok ⟨⟨[⟨"a.sql", "x", "x"⟩], []⟩,
        [.exec "x", .insertCheckpoint "a.sql" "x" 0, .deleteCheckpoints,
         .insertMigration "a.sql"]⟩
  ∧ getMetaCheckpoints "b.sql" (⟨[⟨"a.sql", "x", "x"⟩], []⟩ : StoreState) = [] :=
  ⟨rfl,
   (migrateFile_clears_all_checkpoints (fun s => s) (fun _ => true) "x" "a.sql"
      ⟨⟨[], [⟨"b.sql", "z", "hz", 0⟩]⟩, []⟩
      ⟨⟨[⟨"a.sql", "x", "x"⟩], []⟩,
        [.exec "x", .insertCheckpoint "a.sql" "x" 0, .deleteCheckpoints,
         .insertMigration "a.sql"]⟩ rfl).2 "b.sql"⟩

/-- C5: statement preparation and the empty-file error.  A statement of the
filtered list is exactly a fragment of the content split on `;` that, after
whitespace trimming, is non-empty and does not begin with the line-comment
marker `--`; and `migrateFile` fails with the empty-migration-file error
(leaving the state untouched) exactly when every fragment trims to empty or
to a comment. -/
theorem migrateFile_statement_prep (hash : String → String)
    (execOk : String → Bool) (content filename : String) (st : EngineState) :
    (∀ s, s ∈ splitStatements content ↔
      ∃ frag ∈ splitOnSep ';' content.data,
        s = String.mk (trimChars frag) ∧ trimChars frag ≠ [] ∧
        isComment (trimChars frag) = false)
  ∧ (migrateFile hash execOk content filename st =
        .error (.emptyFile filename, st) ↔
      ∀ frag ∈ splitOnSep ';' content.data,
        trimChars frag = [] ∨ isComment (trimChars frag) = true) := by
  have hnil : splitStatements content = [] ↔
      ∀ frag ∈ splitOnSep ';' content.data,
        trimChars frag = [] ∨ isComment (trimChars frag) = true := by
    simp only [splitStatements, List.map_eq_nil_iff, List.filter_eq_nil_iff]
    constructor
    · intro H frag hfrag
      have hf := H (trimChars frag) (List.mem_map.mpr ⟨frag, hfrag, rfl⟩)
      by_cases hne : trimChars frag = []
      · exact Or.inl hne
      · refine Or.inr ?_
        by_cases hcom : isComment (trimChars frag) = true
        · exact hcom
        · exact absurd (by
            simp [List.isEmpty_iff, hne, hcom]) hf
    · intro H cs hcs
      rcases List.mem_map.mp hcs with ⟨frag, hfrag, rfl⟩
      rcases H frag hfrag with hnil2 | hcom
      · simp [hnil2]
      · simp [hcom]
  refine ⟨fun s => ?_, ?_⟩
  · constructor
    · intro hs
      rcases List.mem_map.mp hs with ⟨cs, hcs, rfl⟩
      rcases List.mem_filter.mp hcs with ⟨hcs2, hp⟩
      rcases List.mem_map.mp hcs2 with ⟨frag, hfrag, rfl⟩
      simp only [Bool.and_eq_true, Bool.not_eq_true', List.isEmpty_eq_false] at hp
      exact ⟨frag, hfrag, rfl, hp.1, by simpa using hp.2⟩
    · rintro ⟨frag, hfrag, rfl, hne, hcom⟩
      refine List.mem_map.mpr ⟨trimChars frag, ?_, rfl⟩
      refine List.mem_filter.mpr ⟨List.mem_map.mpr ⟨frag, hfrag, rfl⟩, ?_⟩
      simp [List.isEmpty_iff, hne, hcom]
  · rw [← hnil]
    constructor
    · intro h
      by_contra hne
      simp only [migrateFile] at h
      rw [if_neg (by simpa using hne)] at h
      by_cases hover : (splitStatements content).length ≤
          (getMetaCheckpoints filename st.store).length
      · rw [if_pos hover] at h
        simp at h
      · rw [if_neg hover] at h
        cases hE : migrateLoop hash execOk filename
            (getMetaCheckpoints filename st.store) (splitStatements content)
            0 st with
        | error e =>
          rw [hE] at h
          dsimp only at h
          have h2 : e = (MigrateError.emptyFile filename, st) := Except.error.inj h
          rw [h2] at hE
          exact migrateLoop_no_emptyFile hash execOk filename
            (getMetaCheckpoints filename st.store) (splitStatements content) 0 st
            filename st hE
        | ok st1 =>
          rw [hE] at h
          dsimp only at h
          cases hI : insertMigration filename content (hash content)
              (deleteMetaCheckpoints st1.store) with
          | ok s =>
            rw [hI] at h
            simp at h
          | error u =>
            rw [hI] at h
            simp at h
    · intro h
      simp only [migrateFile]
      rw [h]
      rfl

/-- Witness for C5: a file containing only a comment and blank fragments
yields the empty-file error, and the file `"a; b"` splits into statements
`"a"` and `"b"`. -/
theorem migrateFile_statement_prep_witness :
    migrateFile (fun s => s) (fun _ => true) "-- c; ;" "f.sql" ⟨⟨[], []⟩, []⟩ =
      .error (.emptyFile "f.sql", ⟨⟨[], []⟩, []⟩)
  ∧ "a" ∈ splitStatements "a; b" :=
  ⟨(migrateFile_statement_prep (fun s => s) (fun _ => true) "-- c; ;" "f.sql"
      ⟨⟨[], []⟩, []⟩).2.mpr (by decide),
   ((migrateFile_statement_prep (fun s => s) (fun _ => true) "a; b" "f.sql"
      ⟨⟨[], []⟩, []⟩).1 "a").mpr ⟨['a'], by decide, by decide, by decide, by decide⟩⟩

/-! ## `sortfiles` -/

theorem firstDupKey_eq_none_iff : ∀ l : List Nat, firstDupKey l = none ↔ l.Nodup
  | [] => by simp [firstDupKey]
  | k :: rest => by
    by_cases hc : rest.contains k = true
    · have hmem : k ∈ rest := by simpa using hc
      simp [firstDupKey, hc, List.nodup_cons, hmem]
    · have hmem : k ∉ rest := by simpa using hc
      simp [firstDupKey, hc, List.nodup_cons, hmem,
        firstDupKey_eq_none_iff rest]

theorem find?_invalid_none (files : List String)
    (hparse : ∀ f ∈ files, (leadingNum f).isSome) :
    files.find? (fun f => (leadingNum f).isNone) = none := by
  rw [List.find?_eq_none]
  intro x hx
  have hs := hparse x hx
  cases hl : leadingNum x with
  | none =>
    rw [hl] at hs
    simp at hs
  | some n => simp [hl]

theorem sortfiles_ok (files : List String)
    (hparse : ∀ f ∈ files, (leadingNum f).isSome)
    (hnodup : (files.map fileKey).Nodup) :
    sortfiles files = .ok (sortBy (fun a b => fileKey a ≤ fileKey b) files) := by
  have hdup : firstDupKey (files.map fileKey) = none :=
    (firstDupKey_eq_none_iff (files.map fileKey)).mpr hnodup
  simp only [sortfiles]
  rw [find?_invalid_none files hparse]
  dsimp only
  rw [hdup]

theorem sorted_keys_lt {l : List String}
    (hs : List.Sorted (fun a b => fileKey a ≤ fileKey b) l)
    (hn : (l.map fileKey).Nodup) :
    List.Sorted (fun a b => fileKey a < fileKey b) l := by
  have hne : l.Pairwise (fun a b => fileKey a ≠ fileKey b) :=
    List.pairwise_map.mp hn
  exact (List.Pairwise.and hs hne).imp
    (fun h => Nat.lt_of_le_of_ne h.1 h.2)

/-- C4: for any file set whose names all carry a parseable leading digit run
with pairwise distinct values, ordering succeeds and returns the unique
permutation sorted strictly ascending by the numeric key, independent of the
order the files were listed in and of the rest of each name. -/
theorem sortfiles_deterministic (files files' : List String)
    (hperm : files.Perm files')
    (hparse : ∀ f ∈ files, (leadingNum f).isSome)
    (hnodup : (files.map fileKey).Nodup) :
    ∃ out, sortfiles files = .ok out ∧ sortfiles files' = .ok out ∧
      out.Perm files ∧ List.Sorted (fun a b => fileKey a < fileKey b) out ∧
      ∀ l, l.Perm files → List.Sorted (fun a b => fileKey a < fileKey b) l →
        l = out := by
  have hparse' : ∀ f ∈ files', (leadingNum f).isSome := fun f hf =>
    hparse f (hperm.mem_iff.mpr hf)
  have hnodup' : (files'.map fileKey).Nodup :=
    ((hperm.map fileKey).nodup_iff).mp hnodup
  have h1 := sortfiles_ok files hparse hnodup
  have h2 := sortfiles_ok files' hparse' hnodup'
  have hperm1 : (sortBy (fun a b => fileKey a ≤ fileKey b) files).Perm files :=
    List.perm_insertionSort _ files
  have hperm2 : (sortBy (fun a b => fileKey a ≤ fileKey b) files').Perm files' :=
    List.perm_insertionSort _ files'
  have hkeys1 : ((sortBy (fun a b => fileKey a ≤ fileKey b) files).map
      fileKey).Nodup := ((hperm1.map fileKey).nodup_iff).mpr hnodup
  have hkeys2 : ((sortBy (fun a b => fileKey a ≤ fileKey b) files').map
      fileKey).Nodup := ((hperm2.map fileKey).nodup_iff).mpr hnodup'
  have hlt1 := sorted_keys_lt (List.sorted_insertionSort _ files) hkeys1
  have hlt2 := sorted_keys_lt (List.sorted_insertionSort _ files') hkeys2
  have heq : sortBy (fun a b => fileKey a ≤ fileKey b) files' =
      sortBy (fun a b => fileKey a ≤ fileKey b) files :=
    List.eq_of_perm_of_sorted
      (hperm2.trans (hperm.symm.trans hperm1.symm)) hlt2 hlt1
  refine ⟨sortBy (fun a b => fileKey a ≤ fileKey b) files, h1, ?_, hperm1, hlt1,
    fun l hl hsl => List.eq_of_perm_of_sorted (hl.trans hperm1.symm) hsl hlt1⟩
  rw [h2, heq]

/-- Witness for C4: the sets `2.sql, 10.sql, 1.sql` and `1.sql, 2.sql,
10.sql` both order to the same sorted output. -/
theorem sortfiles_deterministic_witness :
    (["2.sql", "10.sql", "1.sql"] : List String).Perm
      ["1.sql", "2.sql", "10.sql"]
  ∧ ∃ out, sortfiles ["2.sql", "10.sql", "1.sql"] = .ok out ∧
      sortfiles ["1.sql", "2.sql", "10.sql"] = .ok out ∧
      out.Perm ["2.sql", "10.sql", "1.sql"] ∧
      List.Sorted (fun a b => fileKey a < fileKey b) out ∧
      ∀ l, l.Perm ["2.sql", "10.sql", "1.sql"] →
        List.Sorted (fun a b => fileKey a < fileKey b) l → l = out :=
  ⟨by decide,
   sortfiles_deterministic ["2.sql", "10.sql", "1.sql"]
     ["1.sql", "2.sql", "10.sql"] (by decide) (by decide) (by decide)⟩

/-- C7: any two files sharing the same numeric key make ordering fail with
the duplicate-sequence-number error, whatever the rest of the two names
and wherever the two files sit in the input. -/
theorem sortfiles_duplicate (files : List String) (i j : Nat)
    (hij : i ≠ j) (hi : i < files.length) (hj : j < files.length)
    (hparse : ∀ f ∈ files, (leadingNum f).isSome)
    (hdup : fileKey (files.getD i "") = fileKey (files.getD j "")) :
    ∃ n, sortfiles files = .error (.duplicateSeqNum n) := by
  rw [List.getD_eq_getElem files "" hi, List.getD_eq_getElem files "" hj] at hdup
  have hnodup : ¬ (files.map fileKey).Nodup := by
    intro hn
    have hp := List.pairwise_iff_getElem.mp hn
    rcases Nat.lt_or_ge i j with hlt | hge
    · have hne := hp i j (by simpa using hi) (by simpa using hj) hlt
      rw [List.getElem_map, List.getElem_map] at hne
      exact hne hdup
    · have hlt : j < i := by omega
      have hne := hp j i (by simpa using hj) (by simpa using hi) hlt
      rw [List.getElem_map, List.getElem_map] at hne
      exact hne hdup.symm
  obtain ⟨n, hn⟩ := Option.ne_none_iff_exists'.mp
    (fun h => hnodup ((firstDupKey_eq_none_iff (files.map fileKey)).mp h))
  refine ⟨n, ?_⟩
  simp only [sortfiles]
  rw [find?_invalid_none files hparse]
  dsimp only
  rw [hn]

/-- Witness for C7: `1.sql` and `1_foo.sql` share the numeric key 1 and are
rejected as duplicates. -/
theorem sortfiles_duplicate_witness :
    ∃ n, sortfiles ["1.sql", "1_foo.sql"] = .error (.duplicateSeqNum n) :=
  sortfiles_duplicate ["1.sql", "1_foo.sql"] 0 1 (by decide) (by decide)
    (by decide) (by decide) (by decide)

/-! ## `skip` (adoption) -/

theorem splitOnSep_ne_nil (sep : Char) : ∀ cs : List Char, splitOnSep sep cs ≠ []
  | [] => by simp [splitOnSep]
  | c :: cs => by
    simp only [splitOnSep]
    by_cases h : c = sep
    · rw [if_pos h]
      simp
    · rw [if_neg h]
      cases hE : splitOnSep sep cs with
      | nil => simp
      | cons f fs => simp

theorem mem_splitOnSep_not_mem (sep : Char) :
    ∀ (cs frag : List Char), frag ∈ splitOnSep sep cs → sep ∉ frag
  | [], frag, h => by
    simp only [splitOnSep, List.mem_singleton] at h
    subst h
    simp
  | c :: cs, frag, h => by
    simp only [splitOnSep] at h
    by_cases hc : c = sep
    · rw [if_pos hc] at h
      rcases List.mem_cons.mp h with rfl | h2
      · simp
      · exact mem_splitOnSep_not_mem sep cs frag h2
    · rw [if_neg hc] at h
      cases hE : splitOnSep sep cs with
      | nil => exact absurd hE (splitOnSep_ne_nil sep cs)
      | cons f fs =>
        rw [hE] at h
        rcases List.mem_cons.mp h with rfl | h2
        · intro hmem
          rcases List.mem_cons.mp hmem with he | h3
          · exact hc he.symm
          · exact mem_splitOnSep_not_mem sep cs f
              (by rw [hE]; exact List.mem_cons_self f fs) h3
        · exact mem_splitOnSep_not_mem sep cs frag
            (by rw [hE]; exact List.mem_cons_of_mem f h2)

theorem splitOnSep_no_sep (sep : Char) :
    ∀ cs : List Char, sep ∉ cs → splitOnSep sep cs = [cs]
  | [], _ => rfl
  | c :: cs, h => by
    have hc : ¬ c = sep := fun hh => h (by rw [hh]; exact List.mem_cons_self sep cs)
    simp only [splitOnSep]
    rw [if_neg hc, splitOnSep_no_sep sep cs (fun hm => h (List.mem_cons_of_mem c hm))]

theorem getLastD_mem : ∀ (l : List α) (d : α), l ≠ [] → l.getLastD d ∈ l
  | [], _, h => absurd rfl h
  | a :: t, d, _ => by
    rw [List.getLastD_cons]
    cases t with
    | nil => simp [List.getLastD]
    | cons b t2 =>
      exact List.mem_cons_of_mem a (getLastD_mem (b :: t2) a (by simp))

theorem baseName_idem (s : String) : baseName (baseName s) = baseName s := by
  have hmem : (splitOnSep '/' s.data).getLastD s.data ∈ splitOnSep '/' s.data :=
    getLastD_mem (splitOnSep '/' s.data) s.data (splitOnSep_ne_nil '/' s.data)
  have hns : '/' ∉ (splitOnSep '/' s.data).getLastD s.data :=
    mem_splitOnSep_not_mem '/' s.data _ hmem
  conv_lhs => rw [baseName, baseName]
  rw [show (List.asString ((splitOnSep '/' s.data).getLastD s.data)).data =
      (splitOnSep '/' s.data).getLastD s.data from rfl]
  rw [splitOnSep_no_sep '/' _ hns]
  rw [baseName]
  simp [List.getLastD]

theorem skipUpserts_spec (hash fc : String → String) :
    ∀ (names : List String) (st : EngineState),
    (∀ n ∈ names, ∀ mg ∈ st.store.meta, mg.filename ≠ n) →
    names.Nodup →
    (skipUpserts hash fc names st).store.meta =
      st.store.meta ++ names.map (fun n => ⟨n, fc n, hash (fc n)⟩) ∧
    (skipUpserts hash fc names st).store.metacheckpoints =
      st.store.metacheckpoints ∧
    (skipUpserts hash fc names st).trace =
      st.trace ++ names.map (fun n => Event.upsertMigration n)
  | [], st, _, _ => by simp [skipUpserts]
  | n :: rest, st, hfresh, hnd => by
    have hno : st.store.meta.any (fun m => m.filename = n) = false := by
      rw [List.any_eq_false]
      intro mg hmg
      simpa using hfresh n (List.mem_cons_self n rest) mg hmg
    have hup : upsertMigration n (fc n) (hash (fc n)) st.store =
        ⟨st.store.meta ++ [⟨n, fc n, hash (fc n)⟩], st.store.metacheckpoints⟩ := by
      simp only [upsertMigration]
      rw [if_neg (by rw [hno]; simp)]
    have hn_rest : n ∉ rest := (List.nodup_cons.mp hnd).1
    obtain ⟨h1, h2, h3⟩ := skipUpserts_spec hash fc rest
      ⟨upsertMigration n (fc n) (hash (fc n)) st.store,
        st.trace ++ [Event.upsertMigration n]⟩
      (by
        intro n2 hn2 mg hmg
        rw [hup] at hmg
        rcases List.mem_append.mp hmg with hold | hnew
        · exact hfresh n2 (List.mem_cons_of_mem n hn2) mg hold
        · rw [List.mem_singleton.mp hnew]
          intro he
          exact hn_rest (by rw [← he] at hn2; exact hn2))
      (List.nodup_cons.mp hnd).2
    rw [hup] at h1 h2 h3
    refine ⟨?_, ?_, ?_⟩
    · rw [show skipUpserts hash fc (n :: rest) st = skipUpserts hash fc rest
          ⟨upsertMigration n (fc n) (hash (fc n)) st.store,
            st.trace ++ [Event.upsertMigration n]⟩ from rfl]
      rw [hup, h1]
      simp
    · rw [show skipUpserts hash fc (n :: rest) st = skipUpserts hash fc rest
          ⟨upsertMigration n (fc n) (hash (fc n)) st.store,
            st.trace ++ [Event.upsertMigration n]⟩ from rfl]
      rw [hup, h2]
    · rw [show skipUpserts hash fc (n :: rest) st = skipUpserts hash fc rest
          ⟨upsertMigration n (fc n) (hash (fc n)) st.store,
            st.trace ++ [Event.upsertMigration n]⟩ from rfl]
      rw [hup, h3]
      simp

theorem findIdx?_some_bound : ∀ (l : List α) (p : α → Bool) (s i : Nat),
    List.findIdx? p l s = some i → s ≤ i ∧ i < s + l.length
  | [], p, s, i, h => by simp [List.findIdx?] at h
  | a :: t, p, s, i, h => by
    rw [List.findIdx?_cons] at h
    by_cases hp : p a = true
    · rw [if_pos hp] at h
      have he : s = i := Option.some.inj h
      subst he
      simp only [List.length_cons]
      omega
    · rw [if_neg hp] at h
      have hb := findIdx?_some_bound t p (s + 1) i h
      simp only [List.length_cons]
      omega

/-- C6: adoption (skip-ahead).  Only the base name of the supplied target
matters; if no file carries that base name, `skip` fails with the
unknown-target error; otherwise it returns the target's index after
upserting, for every file from index 0 through the target inclusive, a
migration record whose content and checksum come from that file's on-disk
bytes — issuing no statement executions — and a subsequent normal run's
loop starts right after the recorded prefix, at index target+1. -/
theorem skip_adoption (hash fc : String → String) (files : List String)
    (target : String) (st : EngineState) :
    (skip hash fc files target st = skip hash fc files (baseName target) st)
  ∧ ((∀ f ∈ files, f ≠ baseName target) →
      skip hash fc files target st = .error (.unknownTarget (baseName target)))
  ∧ (∀ index, files.findIdx? (fun n => n = baseName target) = some index →
      files.Nodup → st.store.meta = [] →
      ∃ st2, skip hash fc files target st = .ok (index, st2) ∧
        st2.store.meta =
          (files.take (index + 1)).map (fun n => ⟨n, fc n, hash (fc n)⟩) ∧
        st2.store.metacheckpoints = st.store.metacheckpoints ∧
        st2.trace = st.trace ++
          (files.take (index + 1)).map (fun n => Event.upsertMigration n) ∧
        ∀ execOk : String → Bool,
          Migrate hash execOk fc files (getMigrations st2.store) st2 =
            match migrateFiles hash execOk fc (files.drop (index + 1)) st2 with
            | .ok st3 => .ok (decide (index + 1 < files.length), st3)
            | .error e => .error e) := by
  refine ⟨?_, ?_, ?_⟩
  · simp only [skip]
    rw [baseName_idem]
  · intro h
    have hnone : files.findIdx? (fun n => n = baseName target) = none := by
      rw [List.findIdx?_eq_none_iff]
      intro x hx
      simpa using h x hx
    simp only [skip]
    rw [hnone]
  · intro index hidx hnd hempty
    have hbound := findIdx?_some_bound files (fun n => n = baseName target)
      0 index hidx
    have hindex : index < files.length := by omega
    obtain ⟨h1, h2, h3⟩ := skipUpserts_spec hash fc (files.take (index + 1)) st
      (by
        intro n hn mg hmg
        rw [hempty] at hmg
        simp at hmg)
      (List.Nodup.sublist (List.take_sublist (index + 1) files) hnd)
    rw [hempty] at h1
    refine ⟨skipUpserts hash fc (files.take (index + 1)) st, ?_, by simpa using h1,
      h2, h3, ?_⟩
    · simp only [skip]
      rw [hidx]
    · intro execOk
      have hlen : (getMigrations
          (skipUpserts hash fc (files.take (index + 1)) st).store).length =
          index + 1 := by
        show (skipUpserts hash fc (files.take (index + 1)) st).store.meta.length =
          index + 1
        rw [h1]
        simp only [List.nil_append, List.length_map, List.length_take]
        omega
      simp only [Migrate]
      rw [hlen]

/-- Witness for C6: adopting `x/2.sql` in `1.sql, 2.sql, 3.sql` resolves to
index 1 and records the first two files without executing anything. -/
theorem skip_adoption_witness :
    ((["1.sql", "2.sql", "3.sql"] : List String).findIdx?
      (fun n => n = baseName "x/2.sql") = some 1)
  ∧ (∃ st2, skip (fun s => s) (fun _ => "c") ["1.sql", "2.sql", "3.sql"]
      "x/2.sql" ⟨⟨[], []⟩, []⟩ = .ok (1, st2) ∧
      st2.store.meta = ((["1.sql", "2.sql", "3.sql"] : List String).take 2).map
        (fun n => ⟨n, (fun _ => "c") n, (fun s => s) ((fun _ => "c") n)⟩) ∧
      st2.store.metacheckpoints =
        (⟨⟨[], []⟩, []⟩ : EngineState).store.metacheckpoints ∧
      st2.trace = (⟨⟨[], []⟩, []⟩ : EngineState).trace ++
        ((["1.sql", "2.sql", "3.sql"] : List String).take 2).map
          (fun n => Event.upsertMigration n) ∧
      ∀ execOk : String → Bool,
        Migrate (fun s => s) execOk (fun _ => "c") ["1.sql", "2.sql", "3.sql"]
            (getMigrations st2.store) st2 =
          match migrateFiles (fun s => s) execOk (fun _ => "c")
              ((["1.sql", "2.sql", "3.sql"] : List String).drop 2) st2 with
          | .ok st3 => .ok (decide (2 < (["1.sql", "2.sql", "3.sql"] :
              List String).length), st3)
          | .error e => .error e) :=
  ⟨by decide,
   (skip_adoption (fun s => s) (fun _ => "c") ["1.sql", "2.sql", "3.sql"]
     "x/2.sql" ⟨⟨[], []⟩, []⟩).2.2 1 (by decide) (by decide) rfl⟩

/-! ## `Migrate` -/

theorem migrateFiles_meta (hash : String → String) (execOk : String → Bool)
    (fc : String → String) :
    ∀ (names : List String) (st st2 : EngineState),
    migrateFiles hash execOk fc names st = .ok st2 →
    st2.store.meta = st.store.meta ++
      names.map (fun f => ⟨f, fc f, hash (fc f)⟩)
  | [], st, st2, h => by
    simp only [migrateFiles] at h
    rw [← Except.ok.inj h]
    simp
  | f :: rest, st, st2, h => by
    simp only [migrateFiles] at h
    cases hE : migrateFile hash execOk (fc f) f st with
    | error e =>
      rw [hE] at h
      simp at h
    | ok st1 =>
      rw [hE] at h
      have h1 := (migrateFile_ok_shape hash execOk (fc f) f st st1 hE).1
      rw [migrateFiles_meta hash execOk fc rest st1 st2 h, h1]
      simp

/-- C8: idempotent re-run.  After a fully successful `Migrate` run from a
state whose recorded history is a checksum-consistent prefix of the file
set, the history covers every file; a second `New`-time validation
(`validHistory`) passes, and a second `Migrate` invocation performs no
statement executions, reports `false` ("up to date"), and returns the state
bit-for-bit unchanged — every migration, checkpoint, and trace record is
exactly as the first run left it. -/
theorem migrate_idempotent (hash : String → String) (execOk : String → Bool)
    (fc : String → String) (files : List String) (st0 st1 : EngineState)
    (b : Bool)
    (hpre : st0.store.meta.map (fun mg => mg.filename) =
      files.take st0.store.meta.length)
    (hchk : ∀ mg ∈ st0.store.meta, mg.checksum = hash (fc mg.filename))
    (hrun : Migrate hash execOk fc files (getMigrations st0.store) st0 =
      .ok (b, st1)) :
    (getMigrations st1.store).map (fun mg => mg.filename) = files
  ∧ validHistory hash fc files (getMigrations st1.store) 0 = .ok ()
  ∧ Migrate hash execOk fc files (getMigrations st1.store) st1 =
      .ok (false, st1) := by
  simp only [getMigrations, sqliteGetMigrations] at hrun ⊢
  simp only [Migrate] at hrun
  cases hE : migrateFiles hash execOk fc
      (files.drop st0.store.meta.length) st0 with
  | error e =>
    rw [hE] at hrun
    simp at hrun
  | ok st1' =>
    rw [hE] at hrun
    dsimp only at hrun
    have hst : st1' = st1 := congrArg Prod.snd (Except.ok.inj hrun)
    have hmeta1 := migrateFiles_meta hash execOk fc
      (files.drop st0.store.meta.length) st0 st1' hE
    rw [hst] at hmeta1
    have hi : st1.store.meta.map (fun mg => mg.filename) = files := by
      rw [hmeta1, List.map_append, List.map_map]
      rw [show ((fun mg => mg.filename) ∘
          (fun f => (⟨f, fc f, hash (fc f)⟩ : Migration))) = fun f => f from rfl]
      rw [List.map_id', hpre, List.take_append_drop]
    have hlen1 : st1.store.meta.length = files.length := by
      have hh := congrArg List.length hi
      simpa using hh
    have hchk1 : ∀ mg ∈ st1.store.meta,
        mg.checksum = hash (fc mg.filename) := by
      intro mg hmg
      rw [hmeta1] at hmg
      rcases List.mem_append.mp hmg with hold | hnew
      · exact hchk mg hold
      · rcases List.mem_map.mp hnew with ⟨f, hf, rfl⟩
        rfl
    refine ⟨hi, ?_, ?_⟩
    · unfold validHistory
      rw [if_neg (by omega), List.drop_zero, validHistoryLoop_ok_iff]
      intro j hj
      constructor
      · rw [← getD_map_filename, hi]
        simp
      · exact (hchk1 _ (getD_mem st1.store.meta j defaultMigration hj)).symm
    · simp only [Migrate]
      rw [hlen1, List.drop_length]
      simp only [migrateFiles]
      simp

/-- Witness for C8: after migrating the single file `1.sql` from an empty
store, a second invocation reports `false` and changes nothing. -/
theorem migrate_idempotent_witness :
    Migrate (fun s => s) (fun _ => true) (fun _ => "s") ["1.sql"]
      (getMigrations ⟨[], []⟩) ⟨⟨[], []⟩, []⟩ =
      .ok (true, ⟨⟨[⟨"1.sql", "s", "s"⟩], []⟩,
        [.exec "s", .insertCheckpoint "1.sql" "s" 0, .deleteCheckpoints,
         .insertMigration "1.sql"]⟩)
  ∧ Migrate (fun s => s) (fun _ => true) (fun _ => "s") ["1.sql"]
      (getMigrations (⟨⟨[⟨"1.sql", "s", "s"⟩], []⟩,
        [.exec "s", .insertCheckpoint "1.sql" "s" 0, .deleteCheckpoints,
         .insertMigration "1.sql"]⟩ : EngineState).store)
      ⟨⟨[⟨"1.sql", "s", "s"⟩], []⟩,
        [.exec "s", .insertCheckpoint "1.sql" "s" 0, .deleteCheckpoints,
         .insertMigration "1.sql"]⟩ =
      .ok (false, ⟨⟨[⟨"1.sql", "s", "s"⟩], []⟩,
        [.exec "s", .insertCheckpoint "1.sql" "s" 0, .deleteCheckpoints,
         .insertMigration "1.sql"]⟩) :=
  ⟨rfl,
   (migrate_idempotent (fun s => s) (fun _ => true) (fun _ => "s") ["1.sql"]
     ⟨⟨[], []⟩, []⟩
     ⟨⟨[⟨"1.sql", "s", "s"⟩], []⟩,
       [.exec "s", .insertCheckpoint "1.sql" "s" 0, .deleteCheckpoints,
        .insertMigration "1.sql"]⟩
     true rfl (by simp) rfl).2.2⟩

/-! ## Backend `GetMigrations` ordering -/

/-- C9 (code bug): the contract requires every backend's `listMigrations` to
return records ordered by the numeric-prefix rule, and the mysql backend's
`ORDER BY filename * 1` does so; but the sqlite backend's `GetMigrations`
has no `ORDER BY` at all, so when the stored row order is `2.sql, 1.sql`
it returns the rows in that order even though `1.sql` has the smaller
numeric key — violating the claimed ordering. -/
theorem sqliteGetMigrations_not_ordered :
    sqliteGetMigrations [⟨"2.sql", "b", "cb"⟩, ⟨"1.sql", "a", "ca"⟩] =
      [⟨"2.sql", "b", "cb"⟩, ⟨"1.sql", "a", "ca"⟩]
  ∧ fileKey "1.sql" < fileKey "2.sql"
  ∧ mysqlGetMigrations [⟨"2.sql", "b", "cb"⟩, ⟨"1.sql", "a", "ca"⟩] =
      [⟨"1.sql", "a", "ca"⟩, ⟨"2.sql", "b", "cb"⟩] :=
  ⟨rfl, by decide, by decide⟩
